import Mathlib

/-!
Shallow embedding of the ray-tracing-rs rendering core.

Numbers are modelled as exact rationals (`ℚ`); the f64 square root is
modelled by `sqrtQ`, which is exact on perfect squares.  Randomness is
modelled by explicit oracle arguments (the random unit vector and the
uniform real that the Rust code draws are passed in as parameters).
-/

namespace RT

/-- Rational stand-in for the f64 square root; exact on perfect squares
(all concrete evaluations below only take square roots of perfect squares). -/
def sqrtQ (q : ℚ) : ℚ := (Nat.sqrt q.num.toNat : ℚ) / (Nat.sqrt q.den : ℚ)

/-- Embedding of `vector.rs` `Vector` (three `f64` components). -/
structure Vec3 where
  x : ℚ
  y : ℚ
  z : ℚ
deriving DecidableEq

instance : Add Vec3 := ⟨fun a b => ⟨a.x + b.x, a.y + b.y, a.z + b.z⟩⟩

instance : Sub Vec3 := ⟨fun a b => ⟨a.x - b.x, a.y - b.y, a.z - b.z⟩⟩

instance : Neg Vec3 := ⟨fun a => ⟨-a.x, -a.y, -a.z⟩⟩

/-- Scalar multiplication, `impl Mul<f64> for Vector`. -/
def Vec3.smul (v : Vec3) (c : ℚ) : Vec3 := ⟨v.x * c, v.y * c, v.z * c⟩

/-- Scalar division, `impl Div<f64> for Vector`. -/
def Vec3.divs (v : Vec3) (c : ℚ) : Vec3 := ⟨v.x / c, v.y / c, v.z / c⟩

/-- Dot product, `Vector::dot`. -/
def Vec3.dot (a b : Vec3) : ℚ := a.x * b.x + a.y * b.y + a.z * b.z

/-- Cross product, `Vector::cross`. -/
def Vec3.cross (a b : Vec3) : Vec3 :=
  ⟨a.y * b.z - a.z * b.y, a.z * b.x - a.x * b.z, a.x * b.y - a.y * b.x⟩

/-- Embedding of `Vector::len_squared`. -/
def Vec3.len_squared (v : Vec3) : ℚ := v.dot v

/-- Embedding of `Vector::len` (`len_squared().sqrt()`). -/
def Vec3.len (v : Vec3) : ℚ := sqrtQ v.len_squared

/-- Embedding of `Vector::unit` (`self / self.len()`).  The `UtVector`
wrapper of the source carries no data beyond the vector, so unit vectors
are represented as plain `Vec3`. -/
def Vec3.unit (v : Vec3) : Vec3 := v.divs v.len

/-- Embedding of `UtVector::reflect`:
`(self - normal * (self.dot(normal) * 2.0)).unit()`. -/
def Vec3.reflect (v n : Vec3) : Vec3 := (v - n.smul (v.dot n * 2)).unit

/-- Embedding of `UtVector::refract`. -/
def Vec3.refract (v n : Vec3) (refraction_index : ℚ) : Vec3 :=
  let normal_dir := -n
  let cos_theta := min ((-v).dot normal_dir) 1
  let r_out_perp := (v + normal_dir.smul cos_theta).smul refraction_index
  let r_out_parallel := normal_dir.smul (sqrtQ |1 - r_out_perp.len_squared|)
  (r_out_parallel + r_out_perp).unit

/-- Embedding of `color.rs` `Color`. -/
structure Color where
  r : ℚ
  g : ℚ
  b : ℚ
deriving DecidableEq

instance : Add Color := ⟨fun a b => ⟨a.r + b.r, a.g + b.g, a.b + b.b⟩⟩

/-- Component-wise product, `impl Mul<Color> for Color`. -/
instance : Mul Color := ⟨fun a b => ⟨a.r * b.r, a.g * b.g, a.b * b.b⟩⟩

/-- Scalar multiplication, `impl Mul<f64> for Color`. -/
def Color.smul (c : Color) (s : ℚ) : Color := ⟨c.r * s, c.g * s, c.b * s⟩

/-- `Color::new(0.0, 0.0, 0.0)`. -/
def black : Color := ⟨0, 0, 0⟩

/-- Embedding of `utils.rs` `Interval`. -/
structure Interval where
  min : ℚ
  max : ℚ
deriving DecidableEq

/-- Embedding of `Interval::contains` (exclusive: `t > min && t < max`). -/
def Interval.contains (i : Interval) (t : ℚ) : Prop := i.min < t ∧ t < i.max

instance (i : Interval) (t : ℚ) : Decidable (i.contains t) :=
  inferInstanceAs (Decidable (_ ∧ _))

/-- Embedding of `Interval::contains_inclusive` (`t >= min && t <= max`). -/
def Interval.contains_inclusive (i : Interval) (t : ℚ) : Prop := i.min ≤ t ∧ t ≤ i.max

instance (i : Interval) (t : ℚ) : Decidable (i.contains_inclusive t) :=
  inferInstanceAs (Decidable (_ ∧ _))

/-- Embedding of `Ray` (origin and direction; the direction of a ray
built by the camera is a unit vector). -/
structure Ray where
  origin : Vec3
  dir : Vec3
deriving DecidableEq

/-- Embedding of `Ray::at` (`origin + dir * t`). -/
def Ray.at (r : Ray) (t : ℚ) : Vec3 := r.origin + r.dir.smul t

/-- The material kinds of `src/materials/` as a closed tagged variant
(the repo uses trait objects over exactly these three implementors). -/
inductive Material where
  | lambertian (albedo : Color)
  | metal (albedo : Color) (roughness : ℚ)
  | dielectric (ior : ℚ)
deriving DecidableEq

/-- Embedding of `objects/mod.rs` `HitRecord` (point, normal, t,
front_face, shared material). -/
structure HitRecord where
  point : Vec3
  normal : Vec3
  t : ℚ
  front_face : Bool
  material : Material
deriving DecidableEq

/-- Embedding of `materials/mod.rs` `RayInteraction` (with the
`EmergentRay` payload flattened into the `Scattered` constructor). -/
inductive RayInteraction where
  | Absorbed
  | Scattered (inner : Ray) (attenuation : Color)
deriving DecidableEq

/-- Embedding of `Dielectric::reflectance` (Schlick approximation):
`r0 = ((1-ior)/(1+ior))^2; r0 + (1-r0)*(1-cosine)^5`. -/
def reflectance (cosine ior : ℚ) : ℚ :=
  let r0 := (1 - ior) / (1 + ior)
  let r0sq := r0 * r0
  r0sq + (1 - r0sq) * (1 - cosine) ^ 5

/-- The fuzzed reflected direction computed by `Metal::interact`:
`(ray.dir().reflect(&normal).unit() + random_unit * roughness).unit()`.
`rndUnit` is the oracle value for `Vector::random_unit()`. -/
def metalDirection (roughness : ℚ) (rndUnit : Vec3) (d n : Vec3) : Vec3 :=
  ((Vec3.reflect d n).unit + rndUnit.smul roughness).unit

/-- Embedding of the three `Material::interact` implementations
(`lambertian.rs`, `metal.rs`, `dielectric.rs`).  `rndUnit` models the
`Vector::random_unit()` draw and `rndReal` the `random()` draw. -/
def Material.interact (m : Material) (rndUnit : Vec3) (rndReal : ℚ)
    (ray : Ray) (record : HitRecord) : RayInteraction :=
  match m with
  | .lambertian albedo =>
      let scatter_direction := (record.normal + rndUnit).unit
      .Scattered ⟨record.point, scatter_direction⟩ albedo
  | .metal albedo roughness =>
      let reflected_direction := metalDirection roughness rndUnit ray.dir record.normal
      if reflected_direction.dot record.normal < 0 then .Absorbed
      else .Scattered ⟨record.point, reflected_direction⟩ albedo
  | .dielectric ior0 =>
      let ior := if record.front_face then 1 / ior0 else ior0
      let incident := ray.dir
      let cos_theta := min ((-incident).dot record.normal) 1
      let sin_theta := sqrtQ (1 - cos_theta * cos_theta)
      let direction :=
        if ior * sin_theta > 1 ∨ reflectance cos_theta ior > rndReal then
          incident.reflect record.normal
        else
          incident.refract record.normal ior
      .Scattered ⟨record.point, direction⟩ ⟨1, 1, 1⟩

/-- A `dyn Hittable` is its `hit` method: `fn hit(&self, ray_t, ray)`. -/
abbrev Hittable : Type := Interval → Ray → Option HitRecord

/-- Embedding of `HittableList` (a vector of shared hittables). -/
abbrev HittableList : Type := List Hittable

/-- One step of the `HittableList::hit` loop: query the member on
`[ray_t.min, closest_so_far]` and, on a hit, replace the retained
record and shrink `closest_so_far` to its t. -/
def hitFold (r : Ray) (tmin : ℚ) (st : Option HitRecord × ℚ) (h : Hittable) :
    Option HitRecord × ℚ :=
  match h ⟨tmin, st.2⟩ r with
  | some rec => (some rec, rec.t)
  | none => st

/-- Embedding of `HittableList::hit` (`objects/mod.rs` lines 67-82). -/
def HittableList.hit (world : HittableList) (ray_t : Interval) (r : Ray) :
    Option HitRecord :=
  (world.foldl (hitFold r ray_t.min) (none, ray_t.max)).1

/-- Embedding of `objects/sphere.rs` `Sphere`. -/
structure Sphere where
  center : Vec3
  radius : ℚ
  material : Material

/-- The discriminant computed by `Sphere::hit`. -/
def sphereDiscrim (s : Sphere) (r : Ray) : ℚ :=
  let oc := s.center - r.origin
  let a := r.dir.len_squared
  let h := oc.dot r.dir
  let c := oc.len_squared - s.radius ^ 2
  h ^ 2 - a * c

/-- The near root `(h - sqrt(discrim)) / a` tried first by `Sphere::hit`. -/
def sphereT1 (s : Sphere) (r : Ray) : ℚ :=
  let oc := s.center - r.origin
  let a := r.dir.len_squared
  let h := oc.dot r.dir
  (h - sqrtQ (sphereDiscrim s r)) / a

/-- The far root `(h + sqrt(discrim)) / a` tried second by `Sphere::hit`. -/
def sphereT2 (s : Sphere) (r : Ray) : ℚ :=
  let oc := s.center - r.origin
  let a := r.dir.len_squared
  let h := oc.dot r.dir
  (h + sqrtQ (sphereDiscrim s r)) / a

/-- The record `Sphere::hit` builds for an accepted root `t`. -/
def sphereRecord (s : Sphere) (r : Ray) (t : ℚ) : HitRecord :=
  let normal := (r.at t - s.center).divs s.radius
  let front_face := r.dir.dot normal < 0
  { t := t
    point := r.at t
    front_face := front_face
    normal := if front_face then normal else -normal
    material := s.material }

/-- Embedding of `Sphere::hit` (`objects/sphere.rs` lines 28-61); note the
root acceptance test `t < ray_t.min || t > ray_t.max` is inclusive at
both interval endpoints. -/
def Sphere.hit (s : Sphere) (ray_t : Interval) (r : Ray) : Option HitRecord :=
  if sphereDiscrim s r < 0 then none
  else
    let t1 := sphereT1 s r
    if t1 < ray_t.min ∨ t1 > ray_t.max then
      let t2 := sphereT2 s r
      if t2 < ray_t.min ∨ t2 > ray_t.max then none
      else some (sphereRecord s r t2)
    else some (sphereRecord s r t1)

/-- Embedding of `objects/plane.rs` `Plane` (normal-offset form). -/
structure Plane where
  normal : Vec3
  d : ℚ
  material : Material

/-- The denominator `normal · ray.dir` computed by `Plane::hit`. -/
def planeDenom (p : Plane) (r : Ray) : ℚ := p.normal.dot r.dir

/-- The parameter `t = -(normal · origin + d) / denom` computed by
`Plane::hit`. -/
def planeT (p : Plane) (r : Ray) : ℚ :=
  -(p.normal.dot r.origin + p.d) / planeDenom p r

/-- Embedding of `Plane::hit` (`objects/plane.rs` lines 30-59); the
near-parallel guard uses `|denom| < 0.001` and the containment test is
`Interval::contains`, which is strict at both endpoints. -/
def Plane.hit (p : Plane) (ray_t : Interval) (r : Ray) : Option HitRecord :=
  if |planeDenom p r| < 1 / 1000 then none
  else
    let t := planeT p r
    if ¬ ray_t.contains t then none
    else
      let point := r.origin + r.dir.smul t
      let front_face := r.dir.dot p.normal < 0
      some { point := point
             normal := if front_face then p.normal else -p.normal
             t := t
             front_face := front_face
             material := p.material }

/-- Exact value of `f64::MAX` (`(2 - 2^-52) * 2^1023`). -/
def f64Max : ℚ := 2 ^ 1024 - 2 ^ 971

/-- The query interval `Interval::new(0.001, f64::MAX)` used by the trace
to avoid shadow acne (the decimal literal is modelled exactly). -/
def shadowAcneInterval : Interval := ⟨1 / 1000, f64Max⟩

/-- The sky gradient of the trace miss branch (`ray.rs` lines 60-67):
`a = (unit_dir.y + 1) * 0.5; white * (1 - a) + Color(0.5, 0.70196, 1) * a`. -/
def skyColor (r : Ray) : Color :=
  let unit_direction := r.dir.unit
  let a := (unit_direction.y + 1) * (1 / 2)
  let b : Color := ⟨1 / 2, 17549 / 25000, 1⟩
  Color.smul ⟨1, 1, 1⟩ (1 - a) + Color.smul b a

/-- Modelled from the spec: the on-hit material dispatch of the recursive
trace (`Ray::color`).  The `ray.rs` in the snapshot is a stale
pre-materials revision (it hard-codes a 0.5 Lambertian bounce and does
not type-check against `vector.rs`/`objects/`); the material-dispatching
body the spec describes is present in the repository only through its
declarations (`Material::interact`, `HitRecord.material`) and its caller
(`Camera::pixel_color_at`).  The depth-0 branch and the miss branch below
follow the source (`ray.rs` lines 43-46 and 60-67); the hit branch
follows the spec: Absorbed gives black, Scattered gives
`attenuation ⊙ trace(new_ray, world, depth-1)`.  `oracle d` supplies the
random draws consumed by the material at remaining depth `d + 1`. -/
def trace (oracle : ℕ → Vec3 × ℚ) (world : HittableList) : Ray → ℕ → Color
  | _, 0 => black
  | r, d + 1 =>
    match HittableList.hit world shadowAcneInterval r with
    | some record =>
      match record.material.interact (oracle d).1 (oracle d).2 r record with
      | .Absorbed => black
      | .Scattered inner attenuation => attenuation * trace oracle world inner d
    | none => skyColor r

/-- Embedding of `scene.rs` `AntialiasOptions`. -/
inductive AntialiasOptions where
  | Disabled
  | Enabled (spp : ℕ)
deriving DecidableEq

/-- Embedding of `scene.rs` `ImageOptions` (the Rust field and method are
both named `antialias`; the field is `antialiasOptions` here). -/
structure ImageOptions where
  width : ℕ
  height : ℕ
  antialiasOptions : AntialiasOptions
deriving DecidableEq

/-- Embedding of `ImageOptions::new` (antialiasing off by default). -/
def ImageOptions.new (width height : ℕ) : ImageOptions := ⟨width, height, .Disabled⟩

/-- Embedding of `ImageOptions::aspect_ratio` (`width / height` as reals). -/
def ImageOptions.aspect (o : ImageOptions) : ℚ := (o.width : ℚ) / (o.height : ℚ)

/-- Embedding of `ImageOptions::antialias` (`scene.rs` lines 69-77):
spp 0 selects `Disabled`, any other spp selects `Enabled(spp)`. -/
def ImageOptions.antialias (o : ImageOptions) (spp : ℕ) : ImageOptions :=
  if spp = 0 then { o with antialiasOptions := .Disabled }
  else { o with antialiasOptions := .Enabled spp }

/-- Embedding of `scene.rs` `ParallelOptions`. -/
inductive ParallelOptions where
  | AllAtOnce
  | ByRows
  | Series
deriving DecidableEq

/-- Embedding of `scene.rs` `Viewport`. -/
structure Viewport where
  u : Vec3
  v : Vec3
  pixel_delta_u : Vec3
  pixel_delta_v : Vec3
  upper_left : Vec3

/-- Embedding of `scene.rs` `Camera` (the `render_options` field is
passed separately to the render dispatcher below). -/
structure Camera where
  center : Vec3
  focal_vector : Vec3
  viewport : Viewport
  defocus_angle : ℚ
  image_options : ImageOptions
  world : HittableList

/-- Embedding of `Camera::new` (`scene.rs` lines 178-225).  The f64
call `(vfov/180*pi/2).tan()` is transcendental, so the constructor takes
the already-evaluated `tanHalfTheta`; everything after that line follows
the source (`assert_unit_unsafe` is the identity on the model). -/
def cameraNew (tanHalfTheta : ℚ) (defocus_angle : ℚ) (look_from look_at up : Vec3)
    (image_options : ImageOptions) (world : HittableList) : Camera :=
  let h := tanHalfTheta
  let focal_vector := look_from - look_at
  let focal_length := focal_vector.len
  let viewport_height := 2 * h * focal_length
  let viewport_width :=
    viewport_height * ((image_options.width : ℚ) / (image_options.height : ℚ))
  let w := focal_vector.unit
  let u := (up.cross w).unit.smul viewport_width
  let v := ((u.cross w).smul viewport_height).divs viewport_width
  let pixel_delta_u := u.divs (image_options.width : ℚ)
  let pixel_delta_v := v.divs (image_options.height : ℚ)
  let viewport_upper_left := look_from - focal_vector - (u + v).divs 2
  { center := look_from
    focal_vector := focal_vector
    viewport := ⟨u, v, pixel_delta_u, pixel_delta_v, viewport_upper_left⟩
    defocus_angle := defocus_angle
    image_options := image_options
    world := world }

/-- Modelled from the spec: `ViewportOptions`, the separate viewport
configuration named by the `scene.rs` module docs but absent from the
snapshot. -/
structure ViewportOptions where
  width : ℚ
  height : ℚ

/-- Aspect ratio of a `ViewportOptions`. -/
def ViewportOptions.aspect (v : ViewportOptions) : ℚ := v.width / v.height

/-- Modelled from the spec: the configuration error of `scene::Error`
(the snapshot's `scene::Error` enum is empty). -/
inductive SceneError where
  | MismatchedAspectRatio
deriving DecidableEq

/-- Modelled from the spec: the `Camera` constructor variant that takes
separate image and viewport configuration and rejects a mismatched
aspect ratio with a configuration error before any rendering starts.
The `ImageOptions` docs state that `Camera::new` must fail on a
mismatch, but the snapshot's constructor cannot fail (`scene::Error`
has no variants), so the checked variant is modelled from the spec; the
success branch builds the camera with the unchecked constructor. -/
def cameraNewWithViewport (tanHalfTheta : ℚ) (defocus_angle : ℚ)
    (look_from look_at up : Vec3) (image_options : ImageOptions)
    (viewport_options : ViewportOptions) (world : HittableList) :
    Except SceneError Camera :=
  if image_options.aspect ≠ viewport_options.aspect then
    .error .MismatchedAspectRatio
  else
    .ok (cameraNew tanHalfTheta defocus_angle look_from look_at up image_options world)

/-- Oracle for the random draws of one render: per-depth bounce draws,
per-sample antialias offsets (`Camera::sample_square`), and per-sample
defocus-disk draws (`Vector::random_unit` in `defocus_disk_sample`). -/
structure RandomOracle where
  bounce : ℕ → Vec3 × ℚ
  offset : ℕ → Vec3
  defocus : ℕ → Vec3

/-- Embedding of `Camera::get_pixel_center_coordinates`. -/
def Camera.get_pixel_center_coordinates (c : Camera) (i j : ℕ) : Vec3 :=
  c.viewport.upper_left
    + c.viewport.pixel_delta_u.smul ((i : ℚ) + 1 / 2)
    + c.viewport.pixel_delta_v.smul ((j : ℚ) + 1 / 2)

/-- Embedding of `Camera::defocus_radius`; `tanHalfDeg` models the f64
computation `(degrees_to_radians(angle / 2)).tan()`. -/
def Camera.defocus_radius (tanHalfDeg : ℚ → ℚ) (c : Camera) : ℚ :=
  c.focal_vector.len * tanHalfDeg (c.defocus_angle / 2)

/-- Embedding of `Camera::defocus_disk_sample`. -/
def Camera.defocus_disk_sample (tanHalfDeg : ℚ → ℚ) (o : RandomOracle)
    (c : Camera) (k : ℕ) : Vec3 :=
  let p := o.defocus k
  c.center + (c.viewport.u.smul (Camera.defocus_radius tanHalfDeg c)).smul p.x
    + (c.viewport.v.smul (Camera.defocus_radius tanHalfDeg c)).smul p.y

/-- Embedding of `Camera::get_antialiasing_ray_components` for sample
`k` of pixel `(i, j)`. -/
def Camera.get_antialiasing_ray_components (tanHalfDeg : ℚ → ℚ)
    (o : RandomOracle) (c : Camera) (k i j : ℕ) : Vec3 × Vec3 :=
  let offset := o.offset k
  let point_to := c.viewport.upper_left
    + c.viewport.pixel_delta_u.smul ((i : ℚ) + offset.x + 1 / 2)
    + c.viewport.pixel_delta_v.smul ((j : ℚ) + offset.y + 1 / 2)
  let ray_origin :=
    if c.defocus_angle ≤ 0 then c.center else Camera.defocus_disk_sample tanHalfDeg o c k
  (ray_origin, (point_to - ray_origin).unit)

/-- The color contributed by the single center ray of the
antialiasing-disabled branch of `Camera::pixel_color_at`. -/
def Camera.center_ray_color (o : RandomOracle) (c : Camera) (i j : ℕ) : Color :=
  let pixel_center := Camera.get_pixel_center_coordinates c i j
  let ray_direction := pixel_center - c.center
  black + trace o.bounce c.world ⟨c.center, ray_direction.unit⟩ 50

/-- Embedding of `Camera::pixel_color_at` (`scene.rs` lines 352-373):
disabled antialiasing sends one ray through the pixel center; enabled
antialiasing accumulates `spp` jittered samples each weighted `1/spp`. -/
def Camera.pixel_color_at (tanHalfDeg : ℚ → ℚ) (o : RandomOracle)
    (c : Camera) (i j : ℕ) : Color :=
  match c.image_options.antialiasOptions with
  | .Disabled => Camera.center_ray_color o c i j
  | .Enabled spp =>
    (List.range spp).foldl
      (fun acc k =>
        let comps := Camera.get_antialiasing_ray_components tanHalfDeg o c k i j
        acc + (trace o.bounce c.world ⟨comps.1, comps.2⟩ 50).smul (1 / (spp : ℚ)))
      black

/-- Embedding of the pixel stream written by `Camera::render_parallel_all`:
the full `height * width` buffer is filled at flat index `idx` with the
pixel at column `idx % width`, row `idx / width`, then written in index
order. -/
def Camera.render_parallel_all_pixels (tanHalfDeg : ℚ → ℚ) (o : RandomOracle)
    (c : Camera) : List Color :=
  (List.range (c.image_options.height * c.image_options.width)).map
    (fun idx =>
      Camera.pixel_color_at tanHalfDeg o c (idx % c.image_options.width)
        (idx / c.image_options.width))

/-- Embedding of the pixel stream written by `Camera::render_parallel_by_rows`:
row by row, each row in column order. -/
def Camera.render_parallel_by_rows_pixels (tanHalfDeg : ℚ → ℚ) (o : RandomOracle)
    (c : Camera) : List Color :=
  (List.range c.image_options.height).flatMap
    (fun j => (List.range c.image_options.width).map
      (fun i => Camera.pixel_color_at tanHalfDeg o c i j))

/-- Embedding of the pixel stream written by `Camera::render_sequential`:
nested loops, rows outer, columns inner, write as computed. -/
def Camera.render_sequential_pixels (tanHalfDeg : ℚ → ℚ) (o : RandomOracle)
    (c : Camera) : List Color :=
  (List.range c.image_options.height).flatMap
    (fun j => (List.range c.image_options.width).map
      (fun i => Camera.pixel_color_at tanHalfDeg o c i j))

/-- The pixel stream of `Camera::render` for a given scheduling strategy. -/
def Camera.render_pixels (tanHalfDeg : ℚ → ℚ) (o : RandomOracle)
    (c : Camera) : ParallelOptions → List Color
  | .AllAtOnce => Camera.render_parallel_all_pixels tanHalfDeg o c
  | .ByRows => Camera.render_parallel_by_rows_pixels tanHalfDeg o c
  | .Series => Camera.render_sequential_pixels tanHalfDeg o c

/-- The Hittable contract relative to a semantic hit set `S` of ray
parameters: on every queried interval the member reports the nearest
element of `S` inside the (inclusive) interval, or `none` exactly when
there is no such element. -/
def HitSpec (hf : Hittable) (S : ℚ → Prop) (r : Ray) : Prop :=
  ∀ I : Interval,
    (∀ rec, hf I r = some rec →
      S rec.t ∧ I.min ≤ rec.t ∧ rec.t ≤ I.max ∧
        ∀ t, S t → I.min ≤ t → t ≤ I.max → rec.t ≤ t) ∧
    (hf I r = none → ∀ t, S t → ¬(I.min ≤ t ∧ t ≤ I.max))

/-- Invariant of the `HittableList::hit` accumulator relative to the
originally supplied interval: the retained t equals `closest_so_far`,
which never exceeds the original max, and any retained record lies
inside the original interval. -/
def StInv (I₀ : Interval) (st : Option HitRecord × ℚ) : Prop :=
  st.2 ≤ I₀.max ∧
  (st.1 = none → st.2 = I₀.max) ∧
  (∀ rec, st.1 = some rec → rec.t = st.2 ∧ I₀.min ≤ rec.t ∧ rec.t ≤ I₀.max)

/-- A contract-abiding member with the single hit parameter `t0` (used
to instantiate the `HittableList::hit` theorem at concrete inputs). -/
def singleHitRecord (t0 : ℚ) : HitRecord :=
  ⟨⟨0, 0, 0⟩, ⟨0, 0, 1⟩, t0, true, .lambertian black⟩

/-- A hittable whose only intersection is at parameter `t0` (inclusive
containment, as for `Sphere`). -/
def singleHit (t0 : ℚ) : Hittable :=
  fun I _ => if I.min ≤ t0 ∧ t0 ≤ I.max then some (singleHitRecord t0) else none

/-- Concrete two-member world for evaluating `HittableList::hit`:
a member hitting at t = 5 listed before a member hitting at t = 2. -/
def twoMembers : List (Hittable × (ℚ → Prop)) :=
  [(singleHit 5, fun t => t = 5), (singleHit 2, fun t => t = 2)]

/-- Concrete probe ray used by several witnesses. -/
def probeRay : Ray := ⟨⟨0, 0, 0⟩, ⟨0, 0, -1⟩⟩

/-- Concrete hit record (normal (0,0,1), t = 2, matte grey material)
used to exercise the trace dispatch. -/
def greyRec : HitRecord :=
  ⟨⟨0, 0, 0⟩, ⟨0, 0, 1⟩, 2, true, .lambertian ⟨1 / 2, 1 / 2, 1 / 2⟩⟩

/-- A member that reports `greyRec` on every query. -/
def greyMember : Hittable := fun _ _ => some greyRec

/-- One-member world around `greyMember`. -/
def greyWorld : HittableList := [greyMember]

/-- Concrete bounce oracle: the random unit draw is (0,0,1), the random
real draw is 0. -/
def upOracle : ℕ → Vec3 × ℚ := fun _ => (⟨0, 0, 1⟩, 0)

/-- The ray scattered off `greyRec` by its Lambertian material under
`upOracle`: origin at the hit point, direction `unit((0,0,1)+(0,0,1))`. -/
def greyScatteredRay : Ray := ⟨⟨0, 0, 0⟩, ⟨0, 0, 1⟩⟩

/-- Grey attenuation of `greyRec`'s material. -/
def greyAlbedo : Color := ⟨1 / 2, 1 / 2, 1 / 2⟩

/-- Upward probe ray (unit y direction) for the sky-gradient witness. -/
def upRay : Ray := ⟨⟨0, 0, 0⟩, ⟨0, 1, 0⟩⟩

/-- Concrete metal fuzz draw: a rational unit vector. -/
def fuzzDraw : Vec3 := ⟨1 / 3, 2 / 3, -2 / 3⟩

/-- Concrete record for the metal boundary case (normal (0,0,1)). -/
def metalRec : HitRecord := ⟨⟨0, 0, 0⟩, ⟨0, 0, 1⟩, 1, true, .lambertian black⟩

/-- Red albedo used by the metal witnesses. -/
def redAlbedo : Color := ⟨1, 0, 0⟩

/-- Concrete plane with normal (0,0,1) and offset -5. -/
def flatPlane : Plane := ⟨⟨0, 0, 1⟩, -5, .lambertian black⟩

/-- Ray running parallel to `flatPlane` (denominator exactly 0). -/
def parallelRay : Ray := ⟨⟨0, 0, 0⟩, ⟨1, 0, 0⟩⟩

/-- Ray meeting `flatPlane` head-on at t = 5. -/
def towardPlaneRay : Ray := ⟨⟨0, 0, 0⟩, ⟨0, 0, 1⟩⟩

/-- Concrete unit sphere centred at (0,0,-2). -/
def probeSphere : Sphere := ⟨⟨0, 0, -2⟩, 1, .lambertian black⟩

/-- Camera with antialiasing disabled over an empty world, zero deltas
and upper-left corner (0,3,0), for the pixel-center witness. -/
def simpleCamera : Camera :=
  { center := ⟨0, 0, 0⟩
    focal_vector := ⟨0, 0, 1⟩
    viewport := ⟨⟨0, 0, 0⟩, ⟨0, 0, 0⟩, ⟨0, 0, 0⟩, ⟨0, 0, 0⟩, ⟨0, 3, 0⟩⟩
    defocus_angle := 0
    image_options := ImageOptions.new 2 2
    world := [] }

/-- Trivial oracle record for the camera witnesses. -/
def zeroOracle : RandomOracle :=
  ⟨fun _ => (⟨0, 0, 1⟩, 0), fun _ => ⟨0, 0, 0⟩, fun _ => ⟨0, 0, 0⟩⟩

/-! Helper lemmas (shared; not claim theorems). -/

theorem sqrtQ_eval (r : ℚ) (h0 : 0 ≤ r) : sqrtQ (r * r) = r := by
  unfold sqrtQ
  rw [Rat.mul_self_num, Rat.mul_self_den]
  have hn : 0 ≤ r.num := Rat.num_nonneg.mpr h0
  have hnum : (r.num * r.num).toNat = r.num.toNat * r.num.toNat := by
    rcases Int.eq_ofNat_of_zero_le hn with ⟨n, hne⟩
    rw [hne, ← Int.natCast_mul, Int.toNat_natCast, Int.toNat_natCast]
  rw [hnum, Nat.sqrt_eq, Nat.sqrt_eq]
  have h2 : ((r.num.toNat : ℕ) : ℚ) = ((r.num : ℤ) : ℚ) := by
    exact_mod_cast congrArg (fun z : ℤ => (z : ℚ)) (Int.toNat_of_nonneg hn)
  rw [h2]
  exact Rat.num_div_den r

theorem sqrtQ_one : sqrtQ 1 = 1 := by
  have h := sqrtQ_eval 1 (by norm_num)
  norm_num at h
  exact h

theorem sqrtQ_four : sqrtQ 4 = 2 := by
  have h := sqrtQ_eval 2 (by norm_num)
  norm_num at h
  exact h

theorem sqrtQ_nine : sqrtQ 9 = 3 := by
  have h := sqrtQ_eval 3 (by norm_num)
  norm_num at h
  exact h

theorem vec3_add_def (a b : Vec3) :
    a + b = ⟨a.x + b.x, a.y + b.y, a.z + b.z⟩ := rfl

theorem vec3_sub_def (a b : Vec3) :
    a - b = ⟨a.x - b.x, a.y - b.y, a.z - b.z⟩ := rfl

theorem vec3_neg_def (a : Vec3) : -a = ⟨-a.x, -a.y, -a.z⟩ := rfl

theorem color_add_def (a b : Color) :
    a + b = ⟨a.r + b.r, a.g + b.g, a.b + b.b⟩ := rfl

theorem color_mul_def (a b : Color) :
    a * b = ⟨a.r * b.r, a.g * b.g, a.b * b.b⟩ := rfl

/-! Claim theorems. -/

/-- Claim C6: for every ray and every world, the trace called with
depth 0 returns black. -/
theorem trace_depth_zero_black (oracle : ℕ → Vec3 × ℚ) (world : HittableList)
    (r : Ray) : trace oracle world r 0 = black := rfl

/-- Claim C4, counterexample: at ior = 2 (> 0) the Schlick reflectance
evaluated at cosine 0 is 1, not r0 = ((1-2)/(1+2))² = 1/9, so the
claimed identity fails. -/
theorem reflectance_zero_ne_r0 :
    (0 : ℚ) < 2 ∧ reflectance 0 2 ≠ ((1 - 2) / (1 + 2) : ℚ) ^ 2 := by
  constructor
  · norm_num
  · norm_num [reflectance]

/-- Claim C4 as amended: for every ior > 0 the Schlick reflectance
evaluated at cosine 1 (normal incidence) equals r0 = ((1-ior)/(1+ior))²
exactly. -/
theorem reflectance_at_normal_incidence (ior : ℚ) (hior : 0 < ior) :
    reflectance 1 ior = ((1 - ior) / (1 + ior)) ^ 2 := by
  simp [reflectance]
  ring

/-- Witness for C4's amended theorem at ior = 2. -/
theorem reflectance_at_normal_incidence_witness :
    (0 : ℚ) < 2 ∧ reflectance 1 2 = ((1 - 2) / (1 + 2) : ℚ) ^ 2 :=
  ⟨by norm_num, reflectance_at_normal_incidence 2 (by norm_num)⟩

/-- Claim C5: a ray that the world does not hit traces to exactly the
background gradient, the blend of white and sky blue with mixing factor
(unit_dir.y + 1) / 2, independent of the world's contents. -/
theorem trace_on_miss_sky (oracle : ℕ → Vec3 × ℚ) (world : HittableList)
    (r : Ray) (depth : ℕ) (hd : 0 < depth)
    (hmiss : HittableList.hit world shadowAcneInterval r = none) :
    trace oracle world r depth =
      Color.smul ⟨1, 1, 1⟩ (1 - (r.dir.unit.y + 1) / 2)
        + Color.smul ⟨1 / 2, 17549 / 25000, 1⟩ ((r.dir.unit.y + 1) / 2) := by
  obtain ⟨d, rfl⟩ : ∃ d, depth = d + 1 := ⟨depth - 1, by omega⟩
  show (match HittableList.hit world shadowAcneInterval r with
    | some record =>
      match record.material.interact (oracle d).1 (oracle d).2 r record with
      | .Absorbed => black
      | .Scattered inner attenuation => attenuation * trace oracle world inner d
    | none => skyColor r) = _
  rw [hmiss]
  show skyColor r = _
  unfold skyColor
  ring_nf

/-- Witness for C5: the empty world misses, and the upward unit ray
traces to the sky gradient. -/
theorem trace_on_miss_sky_witness :
    HittableList.hit ([] : HittableList) shadowAcneInterval upRay = none ∧
      trace upOracle [] upRay 3 =
        Color.smul ⟨1, 1, 1⟩ (1 - (upRay.dir.unit.y + 1) / 2)
          + Color.smul ⟨1 / 2, 17549 / 25000, 1⟩ ((upRay.dir.unit.y + 1) / 2) :=
  ⟨rfl, trace_on_miss_sky upOracle [] upRay 3 (by norm_num) rfl⟩

/-- Claim C1: at positive depth, when the world reports a hit the trace
dispatches to the material stored in the hit record: an Absorbed
interaction yields black, and a Scattered interaction yields the
attenuation multiplied component-wise with the trace of the new ray at
depth - 1. -/
theorem trace_on_hit_dispatch (oracle : ℕ → Vec3 × ℚ) (world : HittableList)
    (r : Ray) (depth : ℕ) (rec : HitRecord) (hd : 0 < depth)
    (hh : HittableList.hit world shadowAcneInterval r = some rec) :
    (rec.material.interact (oracle (depth - 1)).1 (oracle (depth - 1)).2 r rec
        = .Absorbed → trace oracle world r depth = black) ∧
    (∀ inner attenuation,
      rec.material.interact (oracle (depth - 1)).1 (oracle (depth - 1)).2 r rec
          = .Scattered inner attenuation →
        trace oracle world r depth
          = attenuation * trace oracle world inner (depth - 1)) := by
  obtain ⟨d, rfl⟩ : ∃ d, depth = d + 1 := ⟨depth - 1, by omega⟩
  have hstep : trace oracle world r (d + 1) =
      (match HittableList.hit world shadowAcneInterval r with
        | some record =>
          match record.material.interact (oracle d).1 (oracle d).2 r record with
          | .Absorbed => black
          | .Scattered inner attenuation => attenuation * trace oracle world inner d
        | none => skyColor r) := rfl
  simp only [Nat.add_sub_cancel]
  constructor
  · intro habs
    rw [hstep, hh]
    show (match rec.material.interact (oracle d).1 (oracle d).2 r rec with
      | .Absorbed => black
      | .Scattered inner attenuation => attenuation * trace oracle world inner d)
      = black
    rw [habs]
  · intro inner attenuation hsc
    rw [hstep, hh]
    show (match rec.material.interact (oracle d).1 (oracle d).2 r rec with
      | .Absorbed => black
      | .Scattered inner attenuation => attenuation * trace oracle world inner d)
      = attenuation * trace oracle world inner d
    rw [hsc]

/-- Witness for C1 at depth 1 over the one-member grey world: the
Lambertian interaction scatters, and the trace equals the albedo times
the recursive trace. -/
theorem trace_on_hit_dispatch_witness :
    0 < 1 ∧ trace upOracle greyWorld probeRay 1
      = greyAlbedo * trace upOracle greyWorld greyScatteredRay 0 := by
  have h := trace_on_hit_dispatch upOracle greyWorld probeRay 1 greyRec
    (by norm_num) rfl
  refine ⟨by norm_num, h.2 greyScatteredRay greyAlbedo ?_⟩
  show Material.interact (.lambertian ⟨1 / 2, 1 / 2, 1 / 2⟩) ⟨0, 0, 1⟩ 0
    probeRay greyRec = .Scattered greyScatteredRay greyAlbedo
  simp only [Material.interact]
  norm_num [greyRec, greyScatteredRay, greyAlbedo, vec3_add_def, Vec3.unit,
    Vec3.divs, Vec3.len, Vec3.len_squared, Vec3.dot, sqrtQ_four]

/-- Claim C7, counterexample: with roughness 3/2 and random draw
(1/3, 2/3, -2/3), a head-on ray against normal (0,0,1) produces a fuzzed
reflected direction whose dot with the normal is exactly 0 (hence ≤ 0),
yet Metal::interact scatters instead of reporting Absorbed. -/
theorem metal_boundary_not_absorbed :
    (metalDirection (3 / 2) fuzzDraw probeRay.dir metalRec.normal).dot
        metalRec.normal ≤ 0 ∧
      Material.interact (.metal redAlbedo (3 / 2)) fuzzDraw 0 probeRay metalRec
        ≠ .Absorbed := by
  have hdot : (metalDirection (3 / 2) fuzzDraw probeRay.dir metalRec.normal).dot
      metalRec.normal = 0 := by
    norm_num [metalDirection, metalRec, probeRay, fuzzDraw, Vec3.reflect,
      Vec3.unit, Vec3.divs, Vec3.len, Vec3.len_squared, Vec3.dot, Vec3.smul,
      vec3_add_def, vec3_sub_def, sqrtQ_one]
  refine ⟨le_of_eq hdot, ?_⟩
  show (if (metalDirection (3 / 2) fuzzDraw probeRay.dir metalRec.normal).dot
      metalRec.normal < 0 then RayInteraction.Absorbed
    else .Scattered ⟨metalRec.point,
      metalDirection (3 / 2) fuzzDraw probeRay.dir metalRec.normal⟩ redAlbedo)
    ≠ .Absorbed
  rw [hdot]
  norm_num
  exact fun h => RayInteraction.noConfusion h

/-- Claim C7 as amended: Metal::interact reports Absorbed iff the fuzzed
reflected direction dotted with the hit normal is strictly negative;
otherwise (including a dot of exactly 0) it reports Scattered with
attenuation equal to the albedo. -/
theorem metal_absorbed_iff_neg (albedo : Color) (roughness : ℚ)
    (rndUnit : Vec3) (rndReal : ℚ) (r : Ray) (rec : HitRecord) :
    (Material.interact (.metal albedo roughness) rndUnit rndReal r rec
        = .Absorbed ↔
      (metalDirection roughness rndUnit r.dir rec.normal).dot rec.normal < 0) ∧
    (¬ (metalDirection roughness rndUnit r.dir rec.normal).dot rec.normal < 0 →
      Material.interact (.metal albedo roughness) rndUnit rndReal r rec
        = .Scattered ⟨rec.point, metalDirection roughness rndUnit r.dir rec.normal⟩
            albedo) := by
  constructor
  · constructor
    · intro habs
      by_contra hge
      simp only [Material.interact, if_neg hge] at habs
      exact RayInteraction.noConfusion habs
    · intro hlt
      simp only [Material.interact, if_pos hlt]
  · intro hge
    simp only [Material.interact, if_neg hge]

/-- Witness for C7's amended theorem: at the boundary instance the
interaction is Scattered with the metal's albedo. -/
theorem metal_absorbed_iff_neg_witness :
    Material.interact (.metal redAlbedo (3 / 2)) fuzzDraw 0 probeRay metalRec
      = .Scattered ⟨metalRec.point,
          metalDirection (3 / 2) fuzzDraw probeRay.dir metalRec.normal⟩
          redAlbedo := by
  have hdot : (metalDirection (3 / 2) fuzzDraw probeRay.dir metalRec.normal).dot
      metalRec.normal = 0 := by
    norm_num [metalDirection, metalRec, probeRay, fuzzDraw, Vec3.reflect,
      Vec3.unit, Vec3.divs, Vec3.len, Vec3.len_squared, Vec3.dot, Vec3.smul,
      vec3_add_def, vec3_sub_def, sqrtQ_one]
  exact (metal_absorbed_iff_neg redAlbedo (3 / 2) fuzzDraw 0 probeRay
    metalRec).2 (by rw [hdot]; norm_num)

/-- Claim C3: constructing a camera from separate image and viewport
configuration with mismatched aspect ratios fails with the configuration
error before any rendering starts, and no camera value is produced. -/
theorem camera_viewport_mismatch_rejected (tanHalfTheta defocus_angle : ℚ)
    (look_from look_at up : Vec3) (image_options : ImageOptions)
    (viewport_options : ViewportOptions) (world : HittableList)
    (hmm : image_options.aspect ≠ viewport_options.aspect) :
    cameraNewWithViewport tanHalfTheta defocus_angle look_from look_at up
        image_options viewport_options world
      = .error .MismatchedAspectRatio ∧
    ∀ cam : Camera,
      cameraNewWithViewport tanHalfTheta defocus_angle look_from look_at up
          image_options viewport_options world ≠ .ok cam := by
  have herr : cameraNewWithViewport tanHalfTheta defocus_angle look_from look_at
      up image_options viewport_options world = .error .MismatchedAspectRatio := by
    simp only [cameraNewWithViewport, if_pos hmm]
  exact ⟨herr, fun cam hok => by rw [herr] at hok; exact Except.noConfusion hok⟩

/-- Witness for C3: a 400x225 image against a 4:3 viewport is rejected. -/
theorem camera_viewport_mismatch_rejected_witness :
    cameraNewWithViewport 1 0 ⟨0, 0, 0⟩ ⟨0, 0, -1⟩ ⟨0, 1, 0⟩
        (ImageOptions.new 400 225) ⟨4, 3⟩ [] = .error .MismatchedAspectRatio :=
  (camera_viewport_mismatch_rejected 1 0 ⟨0, 0, 0⟩ ⟨0, 0, -1⟩ ⟨0, 1, 0⟩
    (ImageOptions.new 400 225) ⟨4, 3⟩ []
    (by norm_num [ImageOptions.aspect, ImageOptions.new, ViewportOptions.aspect])).1

/-- Claim C9: `ImageOptions::antialias` with spp 0 leaves antialiasing
disabled — on a freshly built `ImageOptions` it is a no-op, and a
disabled camera sends exactly one ray through the pixel center — while
any spp > 0 selects `Enabled(spp)`, the averaging of spp jittered
samples. -/
theorem antialias_zero_disabled (w h spp : ℕ) (o : ImageOptions)
    (tanHalfDeg : ℚ → ℚ) (oracle : RandomOracle) (c : Camera) (i j : ℕ) :
    ((ImageOptions.new w h).antialias 0 = ImageOptions.new w h) ∧
    ((o.antialias 0).antialiasOptions = .Disabled) ∧
    (spp ≠ 0 → (o.antialias spp).antialiasOptions = .Enabled spp) ∧
    (c.image_options.antialiasOptions = .Disabled →
      Camera.pixel_color_at tanHalfDeg oracle c i j
        = Camera.center_ray_color oracle c i j) := by
  refine ⟨?_, ?_, ?_, ?_⟩
  · simp [ImageOptions.antialias, ImageOptions.new]
  · simp [ImageOptions.antialias]
  · intro hs
    simp [ImageOptions.antialias, hs]
  · intro hdis
    unfold Camera.pixel_color_at
    rw [hdis]

/-- Witness for C9: spp 4 enables Enabled(4), and the disabled
`simpleCamera` pixel color is the single center-ray color. -/
theorem antialias_zero_disabled_witness :
    ((ImageOptions.new 2 2).antialias 0 = ImageOptions.new 2 2) ∧
    (((ImageOptions.new 2 2).antialias 4).antialiasOptions
      = .Enabled 4) ∧
    Camera.pixel_color_at (fun q => q) zeroOracle simpleCamera 0 0
      = Camera.center_ray_color zeroOracle simpleCamera 0 0 := by
  have h := antialias_zero_disabled 2 2 4 (ImageOptions.new 2 2) (fun q => q)
    zeroOracle simpleCamera 0 0
  exact ⟨h.1, h.2.2.1 (by norm_num), h.2.2.2 rfl⟩

theorem grid_order (f : ℕ → ℕ → Color) (w : ℕ) :
    ∀ h : ℕ, (List.range (h * w)).map (fun idx => f (idx % w) (idx / w))
      = (List.range h).flatMap (fun j => (List.range w).map (fun i => f i j)) := by
  intro h
  rcases Nat.eq_zero_or_pos w with hw | hw
  · subst hw
    simp
  · induction h with
    | zero => simp
    | succ n ih =>
      rw [Nat.succ_mul, List.range_add, List.map_append, ih, List.range_succ,
        List.flatMap_append, List.map_map]
      congr 1
      · simp only [List.flatMap_cons, List.flatMap_nil, List.append_nil]
        apply List.map_congr_left
        intro i hi
        have hiw : i < w := List.mem_range.mp hi
        simp only [Function.comp]
        rw [mul_comm n w, Nat.mul_add_mod, Nat.mod_eq_of_lt hiw,
          Nat.mul_add_div hw, Nat.div_eq_of_lt hiw, Nat.add_zero]

/-- Claim C8: for the same camera (scene) and the same random draws, the
AllAtOnce, ByRows and Series scheduling strategies emit identical pixel
sequences in identical row-major order. -/
theorem render_strategies_agree (tanHalfDeg : ℚ → ℚ) (o : RandomOracle)
    (c : Camera) :
    Camera.render_parallel_all_pixels tanHalfDeg o c
        = Camera.render_parallel_by_rows_pixels tanHalfDeg o c ∧
      Camera.render_parallel_by_rows_pixels tanHalfDeg o c
        = Camera.render_sequential_pixels tanHalfDeg o c := by
  constructor
  · unfold Camera.render_parallel_all_pixels Camera.render_parallel_by_rows_pixels
    exact grid_order (fun i j => Camera.pixel_color_at tanHalfDeg o c i j)
      c.image_options.width c.image_options.height
  · rfl

/-- Claim C10: `Plane::hit` returns none when `|normal . dir| < 0.001`
and when the computed t equals either interval endpoint (its containment
test is strict at both ends), whereas `Sphere::hit` accepts a root whose
t equals either interval endpoint (its rejection test is
`t < min || t > max`). -/
theorem plane_strict_sphere_inclusive (p : Plane) (s : Sphere) (I : Interval)
    (r : Ray) :
    (|planeDenom p r| < 1 / 1000 → Plane.hit p I r = none) ∧
    (planeT p r = I.min ∨ planeT p r = I.max → Plane.hit p I r = none) ∧
    (¬ sphereDiscrim s r < 0 → I.min ≤ sphereT1 s r → sphereT1 s r ≤ I.max →
      Sphere.hit s I r = some (sphereRecord s r (sphereT1 s r))) ∧
    (¬ sphereDiscrim s r < 0 → sphereT1 s r < I.min ∨ sphereT1 s r > I.max →
      I.min ≤ sphereT2 s r → sphereT2 s r ≤ I.max →
      Sphere.hit s I r = some (sphereRecord s r (sphereT2 s r))) := by
  refine ⟨?_, ?_, ?_, ?_⟩
  · intro hpar
    simp only [Plane.hit, if_pos hpar]
  · intro hend
    by_cases hpar : |planeDenom p r| < 1 / 1000
    · simp only [Plane.hit, if_pos hpar]
    · have hnc : ¬ I.contains (planeT p r) := by
        rcases hend with he | he <;> simp [Interval.contains, he]
      simp only [Plane.hit, if_neg hpar, if_pos hnc]
  · intro hdis hlo hhi
    have hnot : ¬ (sphereT1 s r < I.min ∨ sphereT1 s r > I.max) := by
      push_neg
      exact ⟨not_lt.mp (by exact not_lt.mpr hlo), not_lt.mp (by exact not_lt.mpr hhi)⟩
    simp only [Sphere.hit, if_neg hdis, if_neg hnot]
  · intro hdis hout hlo hhi
    have hnot : ¬ (sphereT2 s r < I.min ∨ sphereT2 s r > I.max) := by
      push_neg
      exact ⟨not_lt.mp (by exact not_lt.mpr hlo), not_lt.mp (by exact not_lt.mpr hhi)⟩
    simp only [Sphere.hit, if_neg hdis, if_pos hout, if_neg hnot]

/-- Witness for C10: a parallel ray misses the plane; a head-on ray with
t exactly at the interval minimum misses the plane; the probe sphere
accepts its near root at exactly the interval minimum, and its far root
at exactly the interval minimum when the near root lies below it. -/
theorem plane_strict_sphere_inclusive_witness :
    Plane.hit flatPlane ⟨0, 10⟩ parallelRay = none ∧
    (planeT flatPlane towardPlaneRay = 5 ∧
      Plane.hit flatPlane ⟨5, 10⟩ towardPlaneRay = none) ∧
    (sphereT1 probeSphere probeRay = 1 ∧
      Sphere.hit probeSphere ⟨1, 10⟩ probeRay
        = some (sphereRecord probeSphere probeRay (sphereT1 probeSphere probeRay))) ∧
    (sphereT2 probeSphere probeRay = 3 ∧
      Sphere.hit probeSphere ⟨3, 10⟩ probeRay
        = some (sphereRecord probeSphere probeRay (sphereT2 probeSphere probeRay))) := by
  have hdis : sphereDiscrim probeSphere probeRay = 1 := by
    norm_num [sphereDiscrim, probeSphere, probeRay, Vec3.dot, Vec3.len_squared,
      vec3_sub_def]
  have ht1 : sphereT1 probeSphere probeRay = 1 := by
    simp only [sphereT1, hdis, sqrtQ_one]
    norm_num [probeSphere, probeRay, Vec3.dot, Vec3.len_squared, vec3_sub_def]
  have ht2 : sphereT2 probeSphere probeRay = 3 := by
    simp only [sphereT2, hdis, sqrtQ_one]
    norm_num [probeSphere, probeRay, Vec3.dot, Vec3.len_squared, vec3_sub_def]
  have hpt : planeT flatPlane towardPlaneRay = 5 := by
    norm_num [planeT, planeDenom, flatPlane, towardPlaneRay, Vec3.dot]
  refine ⟨?_, ⟨hpt, ?_⟩, ⟨ht1, ?_⟩, ⟨ht2, ?_⟩⟩
  · exact (plane_strict_sphere_inclusive flatPlane probeSphere ⟨0, 10⟩
      parallelRay).1
      (by norm_num [planeDenom, flatPlane, parallelRay, Vec3.dot])
  · exact (plane_strict_sphere_inclusive flatPlane probeSphere ⟨5, 10⟩
      towardPlaneRay).2.1 (Or.inl (by rw [hpt]))
  · exact (plane_strict_sphere_inclusive flatPlane probeSphere ⟨1, 10⟩
      probeRay).2.2.1 (by rw [hdis]; norm_num) (by rw [ht1]) (by rw [ht1]; norm_num)
  · exact (plane_strict_sphere_inclusive flatPlane probeSphere ⟨3, 10⟩
      probeRay).2.2.2 (by rw [hdis]; norm_num) (Or.inl (by rw [ht1]; norm_num))
      (by rw [ht2]) (by rw [ht2]; norm_num)

theorem hitFold_invariant (r : Ray) (I0 : Interval) :
    ∀ (ms : List (Hittable × (ℚ → Prop))) (st : Option HitRecord × ℚ),
      (∀ p ∈ ms, HitSpec p.1 p.2 r) → StInv I0 st →
      StInv I0 (List.foldl (hitFold r I0.min) st (ms.map Prod.fst)) ∧
      (List.foldl (hitFold r I0.min) st (ms.map Prod.fst)).2 ≤ st.2 ∧
      ((List.foldl (hitFold r I0.min) st (ms.map Prod.fst)).1 = none →
        st.1 = none ∧
        ∀ p ∈ ms, ∀ t, p.2 t → ¬(I0.min ≤ t ∧ t ≤ st.2)) ∧
      (∀ rec, (List.foldl (hitFold r I0.min) st (ms.map Prod.fst)).1 = some rec →
        st.1 = some rec ∨ ∃ p ∈ ms, p.2 rec.t) ∧
      (∀ p ∈ ms, ∀ t, p.2 t → I0.min ≤ t → t ≤ I0.max →
        (List.foldl (hitFold r I0.min) st (ms.map Prod.fst)).2 ≤ t) := by
  intro ms
  induction ms with
  | nil =>
    intro st _ hst
    simp only [List.map_nil, List.foldl_nil]
    refine ⟨hst, le_refl _, fun hn => ⟨hn, by simp⟩, fun rec hr => Or.inl hr, by simp⟩
  | cons p rest ih =>
    intro st hms hst
    have hp : HitSpec p.1 p.2 r := hms p (List.mem_cons_self p rest)
    have hrest : ∀ q ∈ rest, HitSpec q.1 q.2 r :=
      fun q hq => hms q (List.mem_cons_of_mem p hq)
    simp only [List.map_cons, List.foldl_cons]
    rcases hmatch : p.1 ⟨I0.min, st.2⟩ r with _ | rec1
    · have hstep : hitFold r I0.min st p.1 = st := by
        unfold hitFold
        rw [hmatch]
      rw [hstep]
      have hnone := (hp ⟨I0.min, st.2⟩).2 hmatch
      obtain ⟨j1, j2, j3, j4, j5⟩ := ih st hrest hst
      refine ⟨j1, j2, ?_, ?_, ?_⟩
      · intro hn
        obtain ⟨hstn, hrestn⟩ := j3 hn
        refine ⟨hstn, ?_⟩
        intro q hq t ht
        rcases List.mem_cons.mp hq with rfl | hq'
        · exact hnone t ht
        · exact hrestn q hq' t ht
      · intro rec hr
        rcases j4 rec hr with h | ⟨q, hq, hs⟩
        · exact Or.inl h
        · exact Or.inr ⟨q, List.mem_cons_of_mem p hq, hs⟩
      · intro q hq t ht hlo hhi
        rcases List.mem_cons.mp hq with rfl | hq'
        · have hgt : st.2 < t := by
            by_contra hle
            exact hnone t ht ⟨hlo, not_lt.mp hle⟩
          exact le_of_lt (lt_of_le_of_lt j2 hgt)
        · exact j5 q hq' t ht hlo hhi
    · have hstep : hitFold r I0.min st p.1 = (some rec1, rec1.t) := by
        unfold hitFold
        rw [hmatch]
      rw [hstep]
      obtain ⟨hS1, hlo1, hhi1, hmin1⟩ := (hp ⟨I0.min, st.2⟩).1 rec1 hmatch
      have hstInv1 : StInv I0 ((some rec1 : Option HitRecord), rec1.t) := by
        refine ⟨le_trans hhi1 hst.1, fun hcon => Option.noConfusion hcon, ?_⟩
        intro rec hrec
        cases hrec
        exact ⟨rfl, hlo1, le_trans hhi1 hst.1⟩
      obtain ⟨j1, j2, j3, j4, j5⟩ := ih (some rec1, rec1.t) hrest hstInv1
      refine ⟨j1, le_trans j2 hhi1, ?_, ?_, ?_⟩
      · intro hn
        exact absurd (j3 hn).1 (fun hcon => Option.noConfusion hcon)
      · intro rec hr
        rcases j4 rec hr with h | ⟨q, hq, hs⟩
        · cases h
          exact Or.inr ⟨p, List.mem_cons_self p rest, hS1⟩
        · exact Or.inr ⟨q, List.mem_cons_of_mem p hq, hs⟩
      · intro q hq t ht hlo hhi
        rcases List.mem_cons.mp hq with rfl | hq'
        · by_cases hts : t ≤ st.2
          · exact le_trans j2 (hmin1 t ht hlo hts)
          · exact le_trans (le_trans j2 hhi1) (le_of_lt (not_le.mp hts))
        · exact j5 q hq' t ht hlo hhi

/-- Claim C2: for members satisfying the Hittable contract,
`HittableList::hit` returns none or a record whose t lies within the
originally supplied interval, the returned t belongs to some member's
hit set and is the smallest valid t of any member within the original
interval, and a none result means no member has a valid t there. -/
theorem hittableList_hit_nearest (r : Ray) (I0 : Interval)
    (ms : List (Hittable × (ℚ → Prop)))
    (hspec : ∀ p ∈ ms, HitSpec p.1 p.2 r) :
    (∀ rec, HittableList.hit (ms.map Prod.fst) I0 r = some rec →
      (I0.min ≤ rec.t ∧ rec.t ≤ I0.max) ∧ (∃ p ∈ ms, p.2 rec.t) ∧
      ∀ p ∈ ms, ∀ t, p.2 t → I0.min ≤ t → t ≤ I0.max → rec.t ≤ t) ∧
    (HittableList.hit (ms.map Prod.fst) I0 r = none →
      ∀ p ∈ ms, ∀ t, p.2 t → ¬(I0.min ≤ t ∧ t ≤ I0.max)) := by
  have hinit : StInv I0 ((none : Option HitRecord), I0.max) :=
    ⟨le_refl _, fun _ => rfl, fun rec h => Option.noConfusion h⟩
  obtain ⟨j1, j2, j3, j4, j5⟩ := hitFold_invariant r I0 ms (none, I0.max) hspec hinit
  unfold HittableList.hit
  constructor
  · intro rec hrec
    obtain ⟨hteq, hlo, hhi⟩ := j1.2.2 rec hrec
    refine ⟨⟨hlo, hhi⟩, ?_, ?_⟩
    · rcases j4 rec hrec with h | h
      · exact absurd h (fun hcon => Option.noConfusion hcon)
      · exact h
    · intro p hp t ht htlo hthi
      have := j5 p hp t ht htlo hthi
      rw [hteq]
      exact this
  · intro hnone p hp t ht hcon
    exact (j3 hnone).2 p hp t ht hcon

theorem singleHit_spec (t0 : ℚ) (r : Ray) :
    HitSpec (singleHit t0) (fun t => t = t0) r := by
  intro I
  by_cases hc : I.min ≤ t0 ∧ t0 ≤ I.max
  · constructor
    · intro rec hrec
      have heq : some (singleHitRecord t0) = some rec := by
        simpa [singleHit, hc] using hrec
      cases heq
      exact ⟨rfl, hc.1, hc.2, fun t hSt _ _ => le_of_eq hSt.symm⟩
    · intro hnone
      exfalso
      simp [singleHit, hc] at hnone
  · constructor
    · intro rec hrec
      exfalso
      simp [singleHit, hc] at hrec
    · intro hnone t hSt hcon
      rw [hSt] at hcon
      exact hc hcon

/-- Witness for C2 on the two-member world (t = 5 listed before t = 2)
over [0, 10]: the returned record is the t = 2 one, within the original
interval and belonging to a member's hit set. -/
theorem hittableList_hit_nearest_witness :
    HittableList.hit (twoMembers.map Prod.fst) ⟨0, 10⟩ probeRay
      = some (singleHitRecord 2) ∧
    (Interval.mk 0 10).min ≤ (singleHitRecord 2).t ∧
    (singleHitRecord 2).t ≤ (Interval.mk 0 10).max ∧
    (∃ p ∈ twoMembers, p.2 (singleHitRecord 2).t) := by
  have heval : HittableList.hit (twoMembers.map Prod.fst) ⟨0, 10⟩ probeRay
      = some (singleHitRecord 2) := by
    simp only [HittableList.hit, twoMembers, List.map_cons, List.map_nil,
      List.foldl_cons, List.foldl_nil, hitFold, singleHit]
    norm_num [singleHitRecord]
  have hspec : ∀ p ∈ twoMembers, HitSpec p.1 p.2 probeRay := by
    intro p hp
    simp only [twoMembers, List.mem_cons, List.not_mem_nil, or_false] at hp
    rcases hp with rfl | rfl
    · exact singleHit_spec 5 probeRay
    · exact singleHit_spec 2 probeRay
  have h := hittableList_hit_nearest probeRay ⟨0, 10⟩ twoMembers hspec
  obtain ⟨⟨hlo, hhi⟩, hmem, _⟩ := h.1 (singleHitRecord 2) heval
  exact ⟨heval, hlo, hhi, hmem⟩

end RT
